import Mathlib

/-!
Verification development for the polymorphio library (src/lib.rs).

The library provides two mirrored enums, FileOrStdin and FileOrStdout,
each dispatching between an open file and the process standard stream,
selected by comparing a path's lossy string form with the sentinel "-".

Shallow embedding conventions:
* Paths are modelled as their lossy string form (a Lean String); the code
  only observes a path through to_string_lossy and as the key passed to
  File::open / File::create.
* The operating environment's nondeterminism (how many bytes a raw read
  or write call transfers, and which calls fail) is resolved by an
  explicit response script, a list of OsResp values consumed one entry
  per raw OS call; an exhausted script means the call succeeds in full.
* io::Error values produced by the environment are modelled by their
  information content: an error kind.  Rust's File::open / File::create
  propagate the OS error (kind plus errno) without attaching the path,
  and the library forwards those values unchanged.
* Rust's BufReader and BufWriter (default capacity 8192) are modelled
  faithfully, including BufWriter's Drop, which flushes and ignores the
  flush result.
* The process stdin handle is modelled as a persistent buffered stream
  (Rust's io::Stdin wraps a BufReader), while the stdout handle is
  modelled as a raw scripted sink; both are external collaborators in
  the sense of the specification.
-/

inductive IoErrKind where
  | notFound
  | permissionDenied
  | interrupted
  | writeZero
  | invalidData
  | other
  deriving DecidableEq, Repr

/-- One environment response to a raw OS read or write call:
ok n means the OS transfers at most n bytes; err e means the call
fails with error kind e. -/
inductive OsResp where
  | ok (n : Nat)
  | err (e : IoErrKind)
  deriving DecidableEq, Repr

/-- The sentinel path (const STDIO_FILENAME in src/lib.rs). -/
def STDIO_FILENAME : String := "-"

/-- Default capacity of Rust's BufReader and BufWriter. -/
def bufCap : Nat := 8192

/-- A raw readable byte stream as supplied by the environment: its full
content, the current position of the descriptor, and the response
script resolving the environment's nondeterminism. -/
structure RawStream where
  content : List Nat
  pos : Nat
  script : List OsResp
  deriving DecidableEq, Repr

/-- One raw OS read of up to n bytes: delivers the next bytes of the
stream in order, bounded by the request, the remaining content and the
script's next response. -/
def RawStream.read (s : RawStream) (n : Nat) :
    Except IoErrKind (List Nat) × RawStream :=
  match s.script with
  | [] =>
    let k := min n (s.content.length - s.pos)
    (.ok ((s.content.drop s.pos).take k), { s with pos := s.pos + k })
  | .ok m :: rest =>
    let k := min m (min n (s.content.length - s.pos))
    (.ok ((s.content.drop s.pos).take k),
      { s with pos := s.pos + k, script := rest })
  | .err e :: rest => (.error e, { s with script := rest })

/-- Rust std BufReader over a raw stream: rbuf holds the buffered bytes
that have been read ahead from the stream but not yet consumed. -/
structure BufReader where
  rbuf : List Nat
  inner : RawStream
  deriving DecidableEq, Repr

/-- BufRead::fill_buf for BufReader: if the buffer is empty, issue one
raw read of up to bufCap bytes into it; return the buffered bytes
without consuming them. -/
def BufReader.fillBuf (r : BufReader) :
    Except IoErrKind (List Nat) × BufReader :=
  if r.rbuf = [] then
    match r.inner.read bufCap with
    | (.ok bs, s') => (.ok bs, { rbuf := bs, inner := s' })
    | (.error e, s') => (.error e, { rbuf := [], inner := s' })
  else
    (.ok r.rbuf, r)

/-- BufRead::consume for BufReader. -/
def BufReader.consume (r : BufReader) (amt : Nat) : BufReader :=
  { r with rbuf := r.rbuf.drop amt }

/-- Read::read for BufReader: bypass the buffer for large requests when
the buffer is empty, otherwise fill the buffer and copy from it. -/
def BufReader.read (r : BufReader) (n : Nat) :
    Except IoErrKind (List Nat) × BufReader :=
  if r.rbuf = [] ∧ bufCap ≤ n then
    let p := r.inner.read n
    (p.1, { rbuf := [], inner := p.2 })
  else
    match r.fillBuf with
    | (.error e, r') => (.error e, r')
    | (.ok rem, r') =>
      let k := min n rem.length
      (.ok (rem.take k), r'.consume k)

/-- enum FileOrStdin (src/lib.rs lines 9-12).  The Stdin variant holds
the process stdin handle, whose buffered state persists across locks. -/
inductive FileOrStdin where
  | File (f : RawStream)
  | Stdin (s : BufReader)
  deriving DecidableEq, Repr

/-- enum FileOrStdinLock (src/lib.rs lines 14-17). -/
inductive FileOrStdinLock where
  | FileBufReader (r : BufReader)
  | StdinLock (r : BufReader)
  deriving DecidableEq, Repr

/-- FileOrStdin::from_path (src/lib.rs lines 20-26): compare the lossy
string form of the path with STDIO_FILENAME; wrap stdin, or consult the
environment's open oracle fs and wrap the opened file (position 0, with
read script rs), propagating the open error unchanged. -/
def FileOrStdin.from_path (fs : String → Except IoErrKind (List Nat))
    (stdin : BufReader) (rs : List OsResp) (p : String) :
    Except IoErrKind FileOrStdin :=
  if p = STDIO_FILENAME then
    .ok (.Stdin stdin)
  else
    match fs p with
    | .ok c => .ok (.File { content := c, pos := 0, script := rs })
    | .error e => .error e

/-- FileOrStdin::lock (src/lib.rs lines 33-38): a File gets a brand new
BufReader (empty buffer) borrowing the file; Stdin locks the process
stdin, exposing its persistent buffered state. -/
def FileOrStdin.lock : FileOrStdin → FileOrStdinLock
  | .File f => .FileBufReader { rbuf := [], inner := f }
  | .Stdin s => .StdinLock s

/-- Dropping the lock and regaining the handle: dropping a BufReader
discards its read-ahead buffer (the file descriptor keeps its advanced
position); releasing StdinLock returns the buffered state to the
process stdin handle. -/
def FileOrStdinLock.unlock : FileOrStdinLock → FileOrStdin
  | .FileBufReader r => .File r.inner
  | .StdinLock r => .Stdin r

/-- impl Read for FileOrStdinLock (src/lib.rs lines 63-70): exhaustive
match delegating to the wrapped variant. -/
def FileOrStdinLock.read : FileOrStdinLock → Nat →
    Except IoErrKind (List Nat) × FileOrStdinLock
  | .FileBufReader r, n =>
    let p := r.read n
    (p.1, .FileBufReader p.2)
  | .StdinLock r, n =>
    let p := r.read n
    (p.1, .StdinLock p.2)

/-- BufRead::fill_buf for FileOrStdinLock (src/lib.rs lines 73-78). -/
def FileOrStdinLock.fillBuf : FileOrStdinLock →
    Except IoErrKind (List Nat) × FileOrStdinLock
  | .FileBufReader r =>
    let p := r.fillBuf
    (p.1, .FileBufReader p.2)
  | .StdinLock r =>
    let p := r.fillBuf
    (p.1, .StdinLock p.2)

/-- BufRead::consume for FileOrStdinLock (src/lib.rs lines 80-85). -/
def FileOrStdinLock.consume : FileOrStdinLock → Nat → FileOrStdinLock
  | .FileBufReader r, amt => .FileBufReader (r.consume amt)
  | .StdinLock r, amt => .StdinLock (r.consume amt)

/-- The bytes still to be delivered by a buffered reader, in order: the
read-ahead buffer followed by the unread part of the underlying
stream. -/
def BufReader.rem (r : BufReader) : List Nat :=
  r.rbuf ++ r.inner.content.drop r.inner.pos

/-- The bytes still to be delivered by a lock, in order. -/
def FileOrStdinLock.rem : FileOrStdinLock → List Nat
  | .FileBufReader r => r.rem
  | .StdinLock r => r.rem

/-- Fuel bounding the number of read calls Read::read_to_end can make:
every non-final call either consumes a script entry or delivers at
least one byte. -/
def FileOrStdinLock.fuel : FileOrStdinLock → Nat
  | .FileBufReader r =>
    r.rbuf.length + r.inner.script.length + r.inner.content.length + 2
  | .StdinLock r =>
    r.rbuf.length + r.inner.script.length + r.inner.content.length + 2

/-- The loop of Read::read_to_end: repeatedly read a chunk, retrying
interrupted calls, stopping at the first empty read, propagating other
errors. -/
def FileOrStdinLock.readToEndAux : Nat → List Nat → FileOrStdinLock →
    Except IoErrKind (List Nat) × FileOrStdinLock
  | 0, _, l => (.error .other, l)
  | fuel + 1, acc, l =>
    match l.read bufCap with
    | (.ok [], l') => (.ok acc, l')
    | (.ok bs, l') => FileOrStdinLock.readToEndAux fuel (acc ++ bs) l'
    | (.error .interrupted, l') => FileOrStdinLock.readToEndAux fuel acc l'
    | (.error e, l') => (.error e, l')

/-- Read::read_to_end as used on a FileOrStdinLock. -/
def FileOrStdinLock.readToEnd (l : FileOrStdinLock) :
    Except IoErrKind (List Nat) × FileOrStdinLock :=
  FileOrStdinLock.readToEndAux l.fuel [] l

/-- Is b a UTF-8 continuation byte. -/
def isCont (b : Nat) : Bool := 0x80 ≤ b && b ≤ 0xBF

/-- UTF-8 decoding of a byte list, exactly the encoding scheme Rust's
str::from_utf8 validates (well-formed UTF-8 per RFC 3629: no overlong
forms, no surrogates, at most U+10FFFF). -/
def utf8DecodeChars : List Nat → Option (List Char)
  | [] => some []
  | b :: rest =>
    if b ≤ 0x7F then
      (utf8DecodeChars rest).map (fun cs => Char.ofNat b :: cs)
    else if 0xC2 ≤ b && b ≤ 0xDF then
      match rest with
      | c1 :: rest1 =>
        if isCont c1 then
          (utf8DecodeChars rest1).map
            (fun cs => Char.ofNat ((b - 0xC0) * 0x40 + (c1 - 0x80)) :: cs)
        else none
      | [] => none
    else if 0xE0 ≤ b && b ≤ 0xEF then
      match rest with
      | c1 :: c2 :: rest2 =>
        if (if b = 0xE0 then 0xA0 ≤ c1 && c1 ≤ 0xBF
            else if b = 0xED then 0x80 ≤ c1 && c1 ≤ 0x9F
            else isCont c1) && isCont c2 then
          (utf8DecodeChars rest2).map
            (fun cs => Char.ofNat
              ((b - 0xE0) * 0x1000 + (c1 - 0x80) * 0x40 + (c2 - 0x80)) :: cs)
        else none
      | _ => none
    else if 0xF0 ≤ b && b ≤ 0xF4 then
      match rest with
      | c1 :: c2 :: c3 :: rest3 =>
        if (if b = 0xF0 then 0x90 ≤ c1 && c1 ≤ 0xBF
            else if b = 0xF4 then 0x80 ≤ c1 && c1 ≤ 0x8F
            else isCont c1) && isCont c2 && isCont c3 then
          (utf8DecodeChars rest3).map
            (fun cs => Char.ofNat
              ((b - 0xF0) * 0x40000 + (c1 - 0x80) * 0x1000 +
                (c2 - 0x80) * 0x40 + (c3 - 0x80)) :: cs)
        else none
      | _ => none
    else none

/-- Decode a byte list as a UTF-8 string, as Rust's String::from_utf8. -/
def utf8Decode (bs : List Nat) : Option String :=
  (utf8DecodeChars bs).map fun cs => String.mk cs

/-- Read::read_to_string on a lock: read to end, then require the bytes
to be valid UTF-8, failing with InvalidData otherwise. -/
def FileOrStdinLock.readToString (l : FileOrStdinLock) :
    Except IoErrKind String × FileOrStdinLock :=
  match l.readToEnd with
  | (.ok bs, l') =>
    match utf8Decode bs with
    | some s => (.ok s, l')
    | none => (.error .invalidData, l')
  | (.error e, l') => (.error e, l')

/-- FileOrStdin::read_to_string (src/lib.rs lines 44-48):
Self::from_path(path)?.lock().read_to_string(&mut string). -/
def FileOrStdin.read_to_string (fs : String → Except IoErrKind (List Nat))
    (stdin : BufReader) (rs : List OsResp) (p : String) :
    Except IoErrKind String :=
  match FileOrStdin.from_path fs stdin rs p with
  | .error e => .error e
  | .ok h => (FileOrStdinLock.readToString h.lock).1

/-- Modelled from the spec's words for claim C3: the composition
"opening p, locking, and reading to completion", written independently
of the read_to_string source. -/
def specReadToString (fs : String → Except IoErrKind (List Nat))
    (stdin : BufReader) (rs : List OsResp) (p : String) :
    Except IoErrKind String :=
  match FileOrStdin.from_path fs stdin rs p with
  | .error e => .error e
  | .ok h => (FileOrStdinLock.readToString (FileOrStdin.lock h)).1

/-- The writable side of the environment: the filesystem contents, the
create oracle (which paths fail to create and how), the response script
for raw file writes, and the process stdout sink with its own script. -/
structure WWorld where
  files : List (String × List Nat)
  createErr : String → Option IoErrKind
  wscript : List OsResp
  stdoutWritten : List Nat
  stdoutScript : List OsResp

/-- Content of path p in the filesystem (empty if absent). -/
def getFile (fsm : List (String × List Nat)) (p : String) : List Nat :=
  (fsm.lookup p).getD []

/-- Update path p to content v (lookup sees the newest entry). -/
def setFile (fsm : List (String × List Nat)) (p : String)
    (v : List Nat) : List (String × List Nat) :=
  (p, v) :: fsm

/-- One raw OS write to the file at path p: appends a prefix of buf to
the file's content, bounded by the script's next response. -/
def fileWrite (w : WWorld) (p : String) (buf : List Nat) :
    Except IoErrKind Nat × WWorld :=
  match w.wscript with
  | [] =>
    (.ok buf.length,
      { w with files := setFile w.files p (getFile w.files p ++ buf) })
  | .ok m :: rest =>
    let k := min m buf.length
    (.ok k,
      { w with files := setFile w.files p (getFile w.files p ++ buf.take k),
               wscript := rest })
  | .err e :: rest => (.error e, { w with wscript := rest })

/-- One raw OS write to the process stdout sink. -/
def stdoutWrite (w : WWorld) (buf : List Nat) :
    Except IoErrKind Nat × WWorld :=
  match w.stdoutScript with
  | [] =>
    (.ok buf.length, { w with stdoutWritten := w.stdoutWritten ++ buf })
  | .ok m :: rest =>
    let k := min m buf.length
    (.ok k,
      { w with stdoutWritten := w.stdoutWritten ++ buf.take k,
               stdoutScript := rest })
  | .err e :: rest => (.error e, { w with stdoutScript := rest })

/-- Rust std BufWriter over a file: the path of the borrowed file and
the bytes accepted into the write buffer but not yet written out. -/
structure BufWriter where
  path : String
  wbuf : List Nat
  deriving DecidableEq, Repr

/-- BufWriter::flush_buf: repeatedly write the buffered bytes to the
file, removing the written prefix each time, retrying interrupted
calls; Ok(0) on a nonempty buffer is a WriteZero error; other errors
leave the unwritten suffix in the buffer.  Structurally, every
recursive call has consumed one script entry, so the fuel computed by
flushBuf below is always sufficient. -/
def flushBufAux : Nat → WWorld → BufWriter →
    Except IoErrKind Unit × WWorld × BufWriter
  | 0, w, bw =>
    if bw.wbuf = [] then (.ok (), w, bw)
    else (.error .other, w, bw)
  | fuel + 1, w, bw =>
    if bw.wbuf = [] then (.ok (), w, bw)
    else
      match fileWrite w bw.path bw.wbuf with
      | (.ok 0, w') => (.error .writeZero, w', bw)
      | (.ok k, w') =>
        flushBufAux fuel w' { bw with wbuf := bw.wbuf.drop k }
      | (.error .interrupted, w') => flushBufAux fuel w' bw
      | (.error e, w') => (.error e, w', bw)

/-- BufWriter::flush_buf, with sufficient fuel (every recursive call of
flushBufAux has consumed one script entry, and an empty script clears
the whole buffer in one call). -/
def flushBuf (w : WWorld) (bw : BufWriter) :
    Except IoErrKind Unit × WWorld × BufWriter :=
  flushBufAux (w.wscript.length + 1) w bw

/-- BufWriter::write: if the incoming bytes do not fit alongside the
buffered ones, flush first; then large buffers bypass the buffer and go
straight to the file, small ones are appended to the buffer. -/
def BufWriter.write (w : WWorld) (bw : BufWriter) (buf : List Nat) :
    Except IoErrKind Nat × WWorld × BufWriter :=
  let step1 : Except IoErrKind Unit × WWorld × BufWriter :=
    if bufCap < bw.wbuf.length + buf.length then flushBuf w bw
    else (.ok (), w, bw)
  match step1 with
  | (.error e, w', bw') => (.error e, w', bw')
  | (.ok _, w', bw') =>
    if bufCap ≤ buf.length then
      let p := fileWrite w' bw'.path buf
      (p.1, p.2, bw')
    else
      (.ok buf.length, w', { bw' with wbuf := bw'.wbuf ++ buf })

/-- enum FileOrStdout (src/lib.rs lines 88-91).  The File variant is
identified by the path of the created file; the Stdout variant wraps
the process stdout handle living in the WWorld. -/
inductive FileOrStdout where
  | File (path : String)
  | Stdout
  deriving DecidableEq, Repr

/-- enum FileOrStdoutLock (src/lib.rs lines 93-96). -/
inductive FileOrStdoutLock where
  | FileBufWriter (bw : BufWriter)
  | StdoutLock
  deriving DecidableEq, Repr

/-- FileOrStdout::from_path (src/lib.rs lines 99-105): sentinel check on
the lossy string form; otherwise File::create, which truncates an
existing file or creates an empty one, or fails with the environment's
error, propagated unchanged. -/
def FileOrStdout.from_path (w : WWorld) (p : String) :
    Except IoErrKind FileOrStdout × WWorld :=
  if p = STDIO_FILENAME then (.ok .Stdout, w)
  else
    match w.createErr p with
    | some e => (.error e, w)
    | none => (.ok (.File p), { w with files := setFile w.files p [] })

/-- FileOrStdout::lock (src/lib.rs lines 112-117): a File gets a brand
new BufWriter (empty buffer) borrowing the file; Stdout locks the
process stdout. -/
def FileOrStdout.lock : FileOrStdout → FileOrStdoutLock
  | .File p => .FileBufWriter { path := p, wbuf := [] }
  | .Stdout => .StdoutLock

/-- impl Write for FileOrStdoutLock, fn write (src/lib.rs lines
142-147): exhaustive match delegating to the wrapped variant. -/
def FileOrStdoutLock.write (w : WWorld) (l : FileOrStdoutLock)
    (buf : List Nat) : Except IoErrKind Nat × WWorld × FileOrStdoutLock :=
  match l with
  | .FileBufWriter bw =>
    let p := BufWriter.write w bw buf
    (p.1, p.2.1, .FileBufWriter p.2.2)
  | .StdoutLock =>
    let p := stdoutWrite w buf
    (p.1, p.2, .StdoutLock)

/-- impl Write for FileOrStdoutLock, fn flush (src/lib.rs lines
149-154): delegates to BufWriter::flush (flush_buf, then the file's
no-op flush) or to the stdout lock's flush. -/
def FileOrStdoutLock.flush (w : WWorld) (l : FileOrStdoutLock) :
    Except IoErrKind Unit × WWorld × FileOrStdoutLock :=
  match l with
  | .FileBufWriter bw =>
    let p := flushBuf w bw
    (p.1, p.2.1, .FileBufWriter p.2.2)
  | .StdoutLock => (.ok (), w, .StdoutLock)

/-- Dropping a FileOrStdoutLock: dropping a BufWriter runs flush_buf
and ignores its result (std's Drop impl); the buffered bytes that the
failed flush left behind are discarded with the BufWriter.  Dropping
the stdout lock just releases it. -/
def FileOrStdoutLock.unlock (w : WWorld) (l : FileOrStdoutLock) :
    WWorld × FileOrStdout :=
  match l with
  | .FileBufWriter bw =>
    let p := flushBuf w bw
    (p.2.1, .File bw.path)
  | .StdoutLock => (w, .Stdout)

/-- The bytes the locked view has accepted so far, in order: for a file,
what has reached the file followed by what sits in the BufWriter; for
stdout, what has reached the stdout sink. -/
def FileOrStdoutLock.delivered (w : WWorld) : FileOrStdoutLock → List Nat
  | .FileBufWriter bw => getFile w.files bw.path ++ bw.wbuf
  | .StdoutLock => w.stdoutWritten

/-- The loop of the default io::Write::write_all: repeatedly write the
remaining bytes, dropping the accepted prefix; Ok(0) on remaining bytes
is a WriteZero error, interrupted calls are retried, other errors are
returned. -/
def writeAllAux : Nat → WWorld → FileOrStdoutLock → List Nat →
    Except IoErrKind Unit × WWorld × FileOrStdoutLock
  | 0, w, l, remaining =>
    if remaining = [] then (.ok (), w, l)
    else (.error .other, w, l)
  | fuel + 1, w, l, remaining =>
    if remaining = [] then (.ok (), w, l)
    else
      match l.write w remaining with
      | (.ok 0, w', l') => (.error .writeZero, w', l')
      | (.ok n, w', l') => writeAllAux fuel w' l' (remaining.drop n)
      | (.error .interrupted, w', l') => writeAllAux fuel w' l' remaining
      | (.error e, w', l') => (.error e, w', l')

/-- Fuel bounding the iterations of the write_all loop: every
continuing iteration consumes a script entry or accepts a byte. -/
def writeAllFuel (w : WWorld) (buf : List Nat) : Nat :=
  w.wscript.length + w.stdoutScript.length + buf.length + 2

/-- io::Write::write_all as invoked on a FileOrStdoutLock. -/
def FileOrStdoutLock.writeAll (w : WWorld) (l : FileOrStdoutLock)
    (buf : List Nat) : Except IoErrKind Unit × WWorld × FileOrStdoutLock :=
  writeAllAux (writeAllFuel w buf) w l buf

/-- FileOrStdout::write_all (src/lib.rs lines 122-126): resolve the
handle with from_path, lock it, run write_all on the lock, then both
the lock (whose Drop flushes, ignoring the result) and the handle go
out of scope.  The value returned is the loop's result. -/
def FileOrStdout.write_all (w : WWorld) (p : String) (buf : List Nat) :
    Except IoErrKind Unit × WWorld :=
  match FileOrStdout.from_path w p with
  | (.error e, w') => (.error e, w')
  | (.ok h, w') =>
    let l := FileOrStdout.lock h
    let r := FileOrStdoutLock.writeAll w' l buf
    let d := FileOrStdoutLock.unlock r.2.1 r.2.2
    (r.1, d.1)


/-- A quiescent process stdin handle, used in concrete instantiations. -/
def sampleStdin : BufReader :=
  { rbuf := [], inner := { content := [], pos := 0, script := [] } }

/-- An open oracle on which every open attempt fails with the same OS
error, as two missing files do. -/
def failFs : String → Except IoErrKind (List Nat) :=
  fun _ => .error .notFound

/-- A ten-byte file used to demonstrate read-ahead loss across locks. -/
def tenStream : RawStream :=
  { content := [0, 1, 2, 3, 4, 5, 6, 7, 8, 9], pos := 0, script := [] }

/-- A lock over a file with read-ahead bytes already buffered. -/
def sampleLock : FileOrStdinLock :=
  .FileBufReader
    { rbuf := [5, 6], inner := { content := [5, 6, 7], pos := 2, script := [] } }

/-- A writable environment whose every operation succeeds. -/
def okWorld : WWorld :=
  { files := [], createErr := fun _ => none, wscript := [],
    stdoutWritten := [], stdoutScript := [] }

/-- A writable environment in which the next raw file write fails
(e.g. the disk fills up between buffering and flushing). -/
def failFlushWorld : WWorld :=
  { files := [], createErr := fun _ => none, wscript := [.err .other],
    stdoutWritten := [], stdoutScript := [] }

/-- A writable environment on which every create fails. -/
def noCreateWorld : WWorld :=
  { files := [], createErr := fun _ => some .permissionDenied,
    wscript := [], stdoutWritten := [], stdoutScript := [] }

/-- A writable environment whose stdout accepts one byte, then
interrupts one call, then accepts everything. -/
def choppyStdoutWorld : WWorld :=
  { files := [], createErr := fun _ => none, wscript := [],
    stdoutWritten := [], stdoutScript := [.ok 1, .err .interrupted] }

/-- A world with one file and a BufWriter lock on it. -/
def sampleOutWorld : WWorld :=
  { files := [("o", [])], createErr := fun _ => none, wscript := [],
    stdoutWritten := [], stdoutScript := [] }

/-- A raw read that succeeds delivers the next bytes of the stream in
order: what it returned, followed by what is still unread, is exactly
what was unread before, and the content itself is untouched. -/
theorem RawStream.rawRead_ok {s : RawStream} {n : Nat} {bs : List Nat}
    {s' : RawStream} (h : s.read n = (.ok bs, s')) :
    bs ++ s'.content.drop s'.pos = s.content.drop s.pos ∧
      s'.content = s.content := by
  unfold RawStream.read at h
  split at h
  · simp only [Prod.mk.injEq, Except.ok.injEq] at h
    obtain ⟨hbs, hs'⟩ := h
    subst hbs
    subst hs'
    refine ⟨?_, rfl⟩
    simp only
    rw [← List.drop_drop]
    exact List.take_append_drop _ _
  · simp only [Prod.mk.injEq, Except.ok.injEq] at h
    obtain ⟨hbs, hs'⟩ := h
    subst hbs
    subst hs'
    refine ⟨?_, rfl⟩
    simp only
    rw [← List.drop_drop]
    exact List.take_append_drop _ _
  · simp at h

/-- A successful fill_buf loads the returned bytes into the buffer and
preserves the stream of bytes still to be delivered. -/
theorem BufReader.fillBuf_ok {r : BufReader} {bs : List Nat}
    {r' : BufReader} (h : r.fillBuf = (.ok bs, r')) :
    r'.rbuf = bs ∧ r'.rem = r.rem := by
  unfold BufReader.fillBuf at h
  split at h
  case isTrue hemp =>
    split at h
    case h_1 bs0 s' heq =>
      simp only [Prod.mk.injEq, Except.ok.injEq] at h
      obtain ⟨hbs, hs'⟩ := h
      subst hbs
      subst hs'
      obtain ⟨horder, _⟩ := RawStream.rawRead_ok heq
      refine ⟨rfl, ?_⟩
      simp only [BufReader.rem, hemp, List.nil_append]
      exact horder
    case h_2 => simp at h
  case isFalse =>
    simp only [Prod.mk.injEq, Except.ok.injEq] at h
    obtain ⟨hbs, hs'⟩ := h
    subst hbs
    subst hs'
    exact ⟨rfl, rfl⟩

/-- A successful BufReader read delivers the next bytes in order: the
returned bytes followed by the bytes still to be delivered are exactly
the bytes that were to be delivered before the call. -/
theorem BufReader.bufRead_ok {r : BufReader} {n : Nat} {bs : List Nat}
    {r' : BufReader} (h : r.read n = (.ok bs, r')) :
    bs ++ r'.rem = r.rem := by
  unfold BufReader.read at h
  split at h
  case isTrue hc =>
    rcases hr : r.inner.read n with ⟨res, s'⟩
    rw [hr] at h
    simp only [Prod.mk.injEq] at h
    obtain ⟨hres, hs'⟩ := h
    subst hres
    subst hs'
    obtain ⟨horder, _⟩ := RawStream.rawRead_ok hr
    simp only [BufReader.rem, hc.1, List.nil_append]
    exact horder
  case isFalse =>
    split at h
    case h_1 => simp at h
    case h_2 rem0 r0 heq =>
      simp only [Prod.mk.injEq, Except.ok.injEq] at h
      obtain ⟨hbs, hs'⟩ := h
      subst hbs
      subst hs'
      obtain ⟨hrb, hrem⟩ := BufReader.fillBuf_ok heq
      rw [← hrem]
      simp only [BufReader.rem, BufReader.consume, hrb]
      rw [← List.append_assoc]
      rw [List.take_append_drop]

/-- A successful read on either lock variant delivers the next bytes in
order. -/
theorem FileOrStdinLock.lockRead_ok {l : FileOrStdinLock} {n : Nat}
    {bs : List Nat} {l' : FileOrStdinLock}
    (h : l.read n = (.ok bs, l')) : bs ++ l'.rem = l.rem := by
  cases l with
  | FileBufReader r =>
    rcases hr : r.read n with ⟨res, r2⟩
    simp only [FileOrStdinLock.read, hr, Prod.mk.injEq] at h
    obtain ⟨hres, hl'⟩ := h
    subst hl'
    subst hres
    simpa only [FileOrStdinLock.rem] using BufReader.bufRead_ok hr
  | StdinLock r =>
    rcases hr : r.read n with ⟨res, r2⟩
    simp only [FileOrStdinLock.read, hr, Prod.mk.injEq] at h
    obtain ⟨hres, hl'⟩ := h
    subst hl'
    subst hres
    simpa only [FileOrStdinLock.rem] using BufReader.bufRead_ok hr

/-- Reading the entry just set. -/
theorem getFile_setFile (fsm : List (String × List Nat)) (p : String)
    (v : List Nat) : getFile (setFile fsm p v) p = v := by
  simp [getFile, setFile, List.lookup]

/-- What one raw file write does: it never touches the create oracle,
the stdout sink or the read side; a success appends the accepted prefix
to the file, a failure leaves the filesystem untouched. -/
theorem fileWrite_spec {w : WWorld} {p : String} {buf : List Nat}
    {res : Except IoErrKind Nat} {w' : WWorld}
    (h : fileWrite w p buf = (res, w')) :
    w'.createErr = w.createErr ∧ w'.stdoutWritten = w.stdoutWritten ∧
      w'.stdoutScript = w.stdoutScript ∧
      (∀ k, res = .ok k → k ≤ buf.length ∧
        getFile w'.files p = getFile w.files p ++ buf.take k) ∧
      (∀ e, res = .error e → w'.files = w.files) := by
  unfold fileWrite at h
  split at h
  · simp only [Prod.mk.injEq] at h
    obtain ⟨hres, hw'⟩ := h
    subst hw'
    refine ⟨rfl, rfl, rfl, ?_, ?_⟩
    · intro k hk
      rw [← hres] at hk
      simp only [Except.ok.injEq] at hk
      subst hk
      exact ⟨Nat.le_refl _, by rw [getFile_setFile, List.take_length]⟩
    · intro e he
      rw [← hres] at he
      simp at he
  · simp only [Prod.mk.injEq] at h
    obtain ⟨hres, hw'⟩ := h
    subst hw'
    refine ⟨rfl, rfl, rfl, ?_, ?_⟩
    · intro k hk
      rw [← hres] at hk
      simp only [Except.ok.injEq] at hk
      subst hk
      refine ⟨Nat.le_trans (Nat.min_le_right _ _) (Nat.le_refl _), ?_⟩
      rw [getFile_setFile]
    · intro e he
      rw [← hres] at he
      simp at he
  · simp only [Prod.mk.injEq] at h
    obtain ⟨hres, hw'⟩ := h
    subst hw'
    refine ⟨rfl, rfl, rfl, ?_, ?_⟩
    · intro k hk
      rw [← hres] at hk
      simp at hk
    · intro e _
      rfl

/-- What one raw stdout write does: it never touches the filesystem or
the create oracle; a success appends the accepted prefix to the stdout
sink, a failure leaves it untouched. -/
theorem stdoutWrite_spec {w : WWorld} {buf : List Nat}
    {res : Except IoErrKind Nat} {w' : WWorld}
    (h : stdoutWrite w buf = (res, w')) :
    w'.createErr = w.createErr ∧ w'.files = w.files ∧
      w'.wscript = w.wscript ∧
      (∀ k, res = .ok k → k ≤ buf.length ∧
        w'.stdoutWritten = w.stdoutWritten ++ buf.take k) ∧
      (∀ e, res = .error e → w'.stdoutWritten = w.stdoutWritten) := by
  unfold stdoutWrite at h
  split at h
  · simp only [Prod.mk.injEq] at h
    obtain ⟨hres, hw'⟩ := h
    subst hw'
    refine ⟨rfl, rfl, rfl, ?_, ?_⟩
    · intro k hk
      rw [← hres] at hk
      simp only [Except.ok.injEq] at hk
      subst hk
      exact ⟨Nat.le_refl _, by rw [List.take_length]⟩
    · intro e he
      rw [← hres] at he
      simp at he
  · simp only [Prod.mk.injEq] at h
    obtain ⟨hres, hw'⟩ := h
    subst hw'
    refine ⟨rfl, rfl, rfl, ?_, ?_⟩
    · intro k hk
      rw [← hres] at hk
      simp only [Except.ok.injEq] at hk
      subst hk
      exact ⟨Nat.min_le_right _ _, rfl⟩
    · intro e he
      rw [← hres] at he
      simp at he
  · simp only [Prod.mk.injEq] at h
    obtain ⟨hres, hw'⟩ := h
    subst hw'
    refine ⟨rfl, rfl, rfl, ?_, ?_⟩
    · intro k hk
      rw [← hres] at hk
      simp at hk
    · intro e _
      rfl

/-- The flush loop preserves the logical stream of accepted bytes (what
has reached the file followed by what is still buffered), never touches
the stdout side or the create oracle, keeps the borrowed file, and on
success has emptied the buffer. -/
theorem flushBufAux_spec :
    ∀ (fuel : Nat) {w : WWorld} {bw : BufWriter}
      {res : Except IoErrKind Unit} {w' : WWorld} {bw' : BufWriter},
      flushBufAux fuel w bw = (res, w', bw') →
      bw'.path = bw.path ∧ w'.createErr = w.createErr ∧
        w'.stdoutWritten = w.stdoutWritten ∧
        w'.stdoutScript = w.stdoutScript ∧
        getFile w'.files bw.path ++ bw'.wbuf =
          getFile w.files bw.path ++ bw.wbuf ∧
        (res = .ok () → bw'.wbuf = []) := by
  intro fuel
  induction fuel with
  | zero =>
    intro w bw res w' bw' h
    unfold flushBufAux at h
    split at h
    case isTrue hemp =>
      simp only [Prod.mk.injEq] at h
      obtain ⟨hres, hw, hbw⟩ := h
      subst hw
      subst hbw
      exact ⟨rfl, rfl, rfl, rfl, rfl, fun _ => hemp⟩
    case isFalse =>
      simp only [Prod.mk.injEq] at h
      obtain ⟨hres, hw, hbw⟩ := h
      subst hw
      subst hbw
      refine ⟨rfl, rfl, rfl, rfl, rfl, ?_⟩
      intro hok
      rw [← hres] at hok
      simp at hok
  | succ fuel ih =>
    intro w bw res w' bw' h
    unfold flushBufAux at h
    split at h
    case isTrue hemp =>
      simp only [Prod.mk.injEq] at h
      obtain ⟨hres, hw, hbw⟩ := h
      subst hw
      subst hbw
      exact ⟨rfl, rfl, rfl, rfl, rfl, fun _ => hemp⟩
    case isFalse hemp =>
      split at h
      case h_1 w1 heq =>
        simp only [Prod.mk.injEq] at h
        obtain ⟨hres, hw, hbw⟩ := h
        subst hw
        subst hbw
        obtain ⟨hc, hs, hss, hok, _⟩ := fileWrite_spec heq
        refine ⟨rfl, hc, hs, hss, ?_, ?_⟩
        · obtain ⟨_, hg⟩ := hok 0 rfl
          rw [hg]
          simp
        · intro hcontra
          rw [← hres] at hcontra
          simp at hcontra
      case h_2 k w1 hne heq =>
        obtain ⟨hpath, hc, hs, hss, hinv, hok⟩ := ih h
        obtain ⟨hc1, hs1, hss1, hokw, _⟩ := fileWrite_spec heq
        obtain ⟨hkle, hg⟩ := hokw k rfl
        refine ⟨hpath, hc.trans hc1, hs.trans hs1, hss.trans hss1, ?_, hok⟩
        rw [hinv, hg, List.append_assoc, List.take_append_drop]
      case h_3 w1 heq =>
        obtain ⟨hpath, hc, hs, hss, hinv, hok⟩ := ih h
        obtain ⟨hc1, hs1, hss1, _, herrw⟩ := fileWrite_spec heq
        have hfiles := herrw .interrupted rfl
        refine ⟨hpath, hc.trans hc1, hs.trans hs1, hss.trans hss1, ?_, hok⟩
        rw [hinv, hfiles]
      case h_4 e w1 hne heq =>
        simp only [Prod.mk.injEq] at h
        obtain ⟨hres, hw, hbw⟩ := h
        subst hw
        subst hbw
        obtain ⟨hc1, hs1, hss1, _, herrw⟩ := fileWrite_spec heq
        have hfiles := herrw e rfl
        refine ⟨rfl, hc1, hs1, hss1, by rw [hfiles], ?_⟩
        intro hcontra
        rw [← hres] at hcontra
        simp at hcontra

/-- BufWriter::write preserves the logical stream of accepted bytes on
failure, extends it by exactly the accepted prefix on success, and
keeps the borrowed file, the create oracle and the stdout side. -/
theorem BufWriter.bufWrite_spec {w : WWorld} {bw : BufWriter}
    {buf : List Nat} {res : Except IoErrKind Nat} {w' : WWorld}
    {bw' : BufWriter} (h : BufWriter.write w bw buf = (res, w', bw')) :
    bw'.path = bw.path ∧ w'.createErr = w.createErr ∧
      w'.stdoutWritten = w.stdoutWritten ∧
      w'.stdoutScript = w.stdoutScript ∧
      (∀ n, res = .ok n → n ≤ buf.length ∧
        getFile w'.files bw.path ++ bw'.wbuf =
          (getFile w.files bw.path ++ bw.wbuf) ++ buf.take n) ∧
      (∀ e, res = .error e →
        getFile w'.files bw.path ++ bw'.wbuf =
          getFile w.files bw.path ++ bw.wbuf) := by
  unfold BufWriter.write at h
  rcases hstep : (if bufCap < bw.wbuf.length + buf.length
      then flushBuf w bw else (.ok (), w, bw)) with ⟨res1, w1, bw1⟩
  rw [hstep] at h
  have hstep1 : bw1.path = bw.path ∧ w1.createErr = w.createErr ∧
      w1.stdoutWritten = w.stdoutWritten ∧
      w1.stdoutScript = w.stdoutScript ∧
      getFile w1.files bw.path ++ bw1.wbuf =
        getFile w.files bw.path ++ bw.wbuf ∧
      (res1 = .ok () → bufCap ≤ buf.length → bw1.wbuf = []) := by
    split at hstep
    case isTrue =>
      obtain ⟨h1, h2, h3, h4, h5, h6⟩ := flushBufAux_spec _ hstep
      exact ⟨h1, h2, h3, h4, h5, fun hok _ => h6 hok⟩
    case isFalse hnlt =>
      simp only [Prod.mk.injEq] at hstep
      obtain ⟨h1, h2, h3⟩ := hstep
      subst h2
      subst h3
      refine ⟨rfl, rfl, rfl, rfl, rfl, ?_⟩
      intro _ hcap
      have hle : bw.wbuf.length + buf.length ≤ bufCap := Nat.not_lt.mp hnlt
      have hz : bw.wbuf.length = 0 := by omega
      exact List.length_eq_zero.mp hz
  obtain ⟨hpath1, hc1, hs1, hss1, hinv1, hflushed⟩ := hstep1
  cases res1 with
  | error e =>
    simp only [Prod.mk.injEq] at h
    obtain ⟨hres, hw, hbw⟩ := h
    subst hw
    subst hbw
    refine ⟨hpath1, hc1, hs1, hss1, ?_, fun _ _ => hinv1⟩
    intro n hn
    rw [← hres] at hn
    simp at hn
  | ok u =>
    simp only at h
    split at h
    case isTrue hcap =>
      rcases hfw : fileWrite w1 bw1.path buf with ⟨res2, w2⟩
      rw [hfw] at h
      simp only [Prod.mk.injEq] at h
      obtain ⟨hres, hw, hbw⟩ := h
      subst hw
      subst hbw
      obtain ⟨hc2, hs2, hss2, hok2, herr2⟩ := fileWrite_spec hfw
      have hemp : bw1.wbuf = [] := hflushed rfl hcap
      rw [hpath1] at hok2
      refine ⟨hpath1, hc2.trans hc1, hs2.trans hs1, hss2.trans hss1, ?_, ?_⟩
      · intro n hn
        obtain ⟨hle, hg⟩ := hok2 n (by rw [hres]; exact hn)
        refine ⟨hle, ?_⟩
        rw [hemp, List.append_nil, hg]
        have hbase : getFile w1.files bw.path = getFile w.files bw.path ++ bw.wbuf := by
          rw [← hinv1, hemp, List.append_nil]
        rw [hbase]
      · intro e he
        have hfiles := herr2 e (by rw [hres]; exact he)
        rw [hemp, List.append_nil, hfiles, ← hinv1, hemp, List.append_nil]
    case isFalse =>
      simp only [Prod.mk.injEq] at h
      obtain ⟨hres, hw, hbw⟩ := h
      subst hw
      subst hbw
      refine ⟨hpath1, hc1, hs1, hss1, ?_, ?_⟩
      · intro n hn
        rw [← hres] at hn
        simp only [Except.ok.injEq] at hn
        subst hn
        refine ⟨Nat.le_refl _, ?_⟩
        simp only [List.take_length]
        rw [← List.append_assoc, hinv1]
      · intro e he
        rw [← hres] at he
        simp at he

/-- A write on either lock variant submits the caller's bytes in
order: on success the accepted bytes are exactly the next prefix of
the caller's buffer appended to what the view had accepted before; on
failure nothing new is accepted. -/
theorem FileOrStdoutLock.lockWrite_spec {w : WWorld} {l : FileOrStdoutLock}
    {buf : List Nat} {res : Except IoErrKind Nat} {w' : WWorld}
    {l' : FileOrStdoutLock}
    (h : FileOrStdoutLock.write w l buf = (res, w', l')) :
    (∀ n, res = .ok n → n ≤ buf.length ∧
      FileOrStdoutLock.delivered w' l' =
        FileOrStdoutLock.delivered w l ++ buf.take n) ∧
    (∀ e, res = .error e →
      FileOrStdoutLock.delivered w' l' = FileOrStdoutLock.delivered w l) := by
  cases l with
  | FileBufWriter bw =>
    rcases hw : BufWriter.write w bw buf with ⟨res2, w2, bw2⟩
    simp only [FileOrStdoutLock.write, hw, Prod.mk.injEq] at h
    obtain ⟨hres, hw2, hl'⟩ := h
    subst hres
    subst hw2
    subst hl'
    obtain ⟨hpath, _, _, _, hok, herr⟩ := BufWriter.bufWrite_spec hw
    constructor
    · intro n hn
      obtain ⟨hle, hg⟩ := hok n hn
      exact ⟨hle, by simpa only [FileOrStdoutLock.delivered, hpath] using hg⟩
    · intro e he
      simpa only [FileOrStdoutLock.delivered, hpath] using herr e he
  | StdoutLock =>
    rcases hw : stdoutWrite w buf with ⟨res2, w2⟩
    simp only [FileOrStdoutLock.write, hw, Prod.mk.injEq] at h
    obtain ⟨hres, hw2, hl'⟩ := h
    subst hres
    subst hw2
    subst hl'
    obtain ⟨_, _, _, hok, herr⟩ := stdoutWrite_spec hw
    constructor
    · intro n hn
      obtain ⟨hle, hg⟩ := hok n hn
      exact ⟨hle, by simpa only [FileOrStdoutLock.delivered] using hg⟩
    · intro e he
      simpa only [FileOrStdoutLock.delivered] using herr e he

/-- The write_all loop never reports success after submitting only a
prefix: whenever it returns ok, the view has accepted exactly the whole
buffer, appended in order to what it had accepted before, whatever the
fuel and whatever partial writes or interruptions the environment
produced along the way. -/
theorem writeAllAux_ok :
    ∀ (fuel : Nat) {w : WWorld} {l : FileOrStdoutLock} {buf : List Nat}
      {w' : WWorld} {l' : FileOrStdoutLock},
      writeAllAux fuel w l buf = (.ok (), w', l') →
      FileOrStdoutLock.delivered w' l' =
        FileOrStdoutLock.delivered w l ++ buf := by
  intro fuel
  induction fuel with
  | zero =>
    intro w l buf w' l' h
    unfold writeAllAux at h
    split at h
    case isTrue hemp =>
      simp only [Prod.mk.injEq] at h
      obtain ⟨_, hw, hl⟩ := h
      subst hw
      subst hl
      rw [hemp, List.append_nil]
    case isFalse =>
      simp at h
  | succ fuel ih =>
    intro w l buf w' l' h
    unfold writeAllAux at h
    split at h
    case isTrue hemp =>
      simp only [Prod.mk.injEq] at h
      obtain ⟨_, hw, hl⟩ := h
      subst hw
      subst hl
      rw [hemp, List.append_nil]
    case isFalse hemp =>
      split at h
      case h_1 w1 l1 heq =>
        simp at h
      case h_2 n w1 l1 hne heq =>
        have hrec := ih h
        obtain ⟨hok, _⟩ := FileOrStdoutLock.lockWrite_spec heq
        obtain ⟨hle, hg⟩ := hok n rfl
        rw [hrec, hg, List.append_assoc, List.take_append_drop]
      case h_3 w1 l1 heq =>
        have hrec := ih h
        obtain ⟨_, herr⟩ := FileOrStdoutLock.lockWrite_spec heq
        rw [hrec, herr .interrupted rfl]
      case h_4 e w1 l1 hne heq =>
        simp at h

/-- An empty buffer is written out by write_all immediately. -/
theorem writeAllAux_clean_nil (fuel : Nat) (w : WWorld)
    (l : FileOrStdoutLock) : writeAllAux fuel w l [] = (.ok (), w, l) := by
  cases fuel <;> simp [writeAllAux]

/-- With an exhausted file-write script every raw write succeeds in
full, so BufWriter::write started on an empty buffer accepts the whole
buffer at once, keeping the script exhausted. -/
theorem BufWriter.write_clean {w : WWorld} {bw : BufWriter}
    {buf : List Nat} (hs : w.wscript = []) (hb : bw.wbuf = []) :
    ∃ w1 bw1, BufWriter.write w bw buf = (.ok buf.length, w1, bw1) ∧
      w1.wscript = [] ∧ w1.createErr = w.createErr ∧
      bw1.path = bw.path := by
  unfold BufWriter.write
  have hflush : (if bufCap < bw.wbuf.length + buf.length
      then flushBuf w bw else (.ok (), w, bw)) = (.ok (), w, bw) := by
    split
    · simp [flushBuf, flushBufAux, hb]
    · rfl
  rw [hflush]
  split
  case isTrue =>
    have hfw : fileWrite w bw.path buf = (.ok buf.length,
        { w with files :=
            setFile w.files bw.path (getFile w.files bw.path ++ buf) }) := by
      simp [fileWrite, hs]
    dsimp only
    rw [hfw]
    exact ⟨_, bw, rfl, hs, rfl, rfl⟩
  case isFalse =>
    exact ⟨w, { bw with wbuf := bw.wbuf ++ buf }, rfl, hs, rfl, rfl⟩

/-- With an exhausted file-write script the write_all loop succeeds,
needing a single write call, and keeps the script exhausted, the create
oracle intact and the same borrowed file. -/
theorem writeAllAux_clean_file (f : Nat) {w : WWorld} {bw : BufWriter}
    {c : List Nat} (hs : w.wscript = []) (hb : bw.wbuf = []) :
    ∃ w1 bw1,
      writeAllAux (f + 1) w (.FileBufWriter bw) c =
        (.ok (), w1, .FileBufWriter bw1) ∧
      w1.wscript = [] ∧ w1.createErr = w.createErr ∧
      bw1.path = bw.path := by
  rcases c with _ | ⟨a, as⟩
  · exact ⟨w, bw, writeAllAux_clean_nil _ _ _, hs, rfl, rfl⟩
  · obtain ⟨w1, bw1, hw, hs1, hc1, hp1⟩ :=
      @BufWriter.write_clean w bw (a :: as) hs hb
    refine ⟨w1, bw1, ?_, hs1, hc1, hp1⟩
    have hlw : FileOrStdoutLock.write w (.FileBufWriter bw) (a :: as) =
        (.ok (as.length + 1), w1, .FileBufWriter bw1) := by
      simp only [FileOrStdoutLock.write, hw]
      rfl
    simp only [writeAllAux, hlw]
    simp only [List.drop_succ_cons, List.drop_length]
    rw [writeAllAux_clean_nil]
    simp

/-- With an exhausted file-write script flush_buf succeeds, empties the
buffer, and keeps the script exhausted and the create oracle intact. -/
theorem flushBuf_clean {w : WWorld} {bw : BufWriter}
    (hs : w.wscript = []) :
    ∃ w', flushBuf w bw = (.ok (), w', { bw with wbuf := [] }) ∧
      w'.wscript = [] ∧ w'.createErr = w.createErr := by
  by_cases hb : bw.wbuf = []
  · refine ⟨w, ?_, hs, rfl⟩
    simp [flushBuf, flushBufAux, hb]
    exact hb ▸ rfl
  · rcases hwb : bw.wbuf with _ | ⟨a, as⟩
    · exact absurd hwb hb
    · have hfw : fileWrite w bw.path (a :: as) = (.ok (as.length + 1),
          { w with files := setFile w.files bw.path (getFile w.files bw.path ++ (a :: as)) }) := by
        simp [fileWrite, hs]
      refine ⟨{ w with files := setFile w.files bw.path (getFile w.files bw.path ++ (a :: as)) }, ?_, hs, rfl⟩
      unfold flushBuf
      rw [hs]
      simp only [List.length_nil]
      unfold flushBufAux
      rw [if_neg hb, hwb, hfw]
      simp only [List.drop_succ_cons, List.drop_length]
      unfold flushBufAux
      simp
      exact hs

/-- With an all-accepting environment, FileOrStdout::write_all on a
non-sentinel path succeeds and leaves the file containing exactly the
buffer: the create step truncates the file to empty, the loop submits
the buffer, and the drop-flush moves everything to the file.  The
environment stays all-accepting and the create oracle is untouched. -/
theorem write_all_clean {w : WWorld} {p : String} {c : List Nat}
    (hp : p ≠ STDIO_FILENAME) (hcr : w.createErr p = none)
    (hs : w.wscript = []) :
    (FileOrStdout.write_all w p c).1 = .ok () ∧
      getFile (FileOrStdout.write_all w p c).2.files p = c ∧
      (FileOrStdout.write_all w p c).2.wscript = [] ∧
      (FileOrStdout.write_all w p c).2.createErr = w.createErr := by
  have hfp : FileOrStdout.from_path w p =
      (.ok (.File p), { w with files := setFile w.files p [] }) := by
    simp [FileOrStdout.from_path, hp, hcr]
  set w1 : WWorld := { w with files := setFile w.files p [] } with hw1
  have hs1 : w1.wscript = [] := hs
  obtain ⟨w2, bw2, hloop, hs2, hc2, hp2⟩ :=
    @writeAllAux_clean_file
      (w1.wscript.length + w1.stdoutScript.length + c.length + 1)
      w1 { path := p, wbuf := [] } c hs1 rfl
  have hdel := writeAllAux_ok _ hloop
  have hdel2 : getFile w2.files bw2.path ++ bw2.wbuf = c := by
    have : FileOrStdoutLock.delivered w1 (.FileBufWriter { path := p, wbuf := [] }) = [] := by
      simp only [FileOrStdoutLock.delivered, List.append_nil, hw1]
      exact getFile_setFile _ _ _
    rw [this, List.nil_append] at hdel
    simpa only [FileOrStdoutLock.delivered] using hdel
  obtain ⟨w3, hflush, hs3, hc3⟩ := @flushBuf_clean w2 bw2 hs2
  obtain ⟨_, _, _, _, hinv, hwb3⟩ := flushBufAux_spec _ hflush
  have hfinal : getFile w3.files p = c := by
    have h1 : getFile w3.files bw2.path ++
        ({ bw2 with wbuf := ([] : List Nat) } : BufWriter).wbuf =
        getFile w2.files bw2.path ++ bw2.wbuf := hinv
    simp only [List.append_nil] at h1
    have hp2x : bw2.path = p := hp2
    rw [← hp2x, h1, hdel2]
  have hwrap : FileOrStdout.write_all w p c = (.ok (), w3) := by
    unfold FileOrStdout.write_all
    rw [hfp]
    dsimp only
    have hlock : FileOrStdout.lock (.File p) =
        .FileBufWriter { path := p, wbuf := [] } := rfl
    rw [hlock]
    have hwa : FileOrStdoutLock.writeAll w1
        (.FileBufWriter { path := p, wbuf := [] }) c =
        (.ok (), w2, .FileBufWriter bw2) := hloop
    rw [hwa]
    dsimp only
    unfold FileOrStdoutLock.unlock
    dsimp only
    rw [hflush]
  rw [hwrap]
  exact ⟨rfl, hfinal, hs3, hc3.trans hc2⟩

/-- C1: FileOrStdin::from_path inspects the path's lossy string form:
on the sentinel it returns the Stdin variant wrapping the process
stdin, for every environment alike (so no filesystem access and no
possible error, even when a file named "-" exists); on any other path
it consults the environment's open oracle and wraps the opened file in
the File variant, or propagates the open error. -/
theorem c1_from_path_dispatch :
    (∀ fs stdin rs, FileOrStdin.from_path fs stdin rs "-" =
      .ok (.Stdin stdin)) ∧
    (∀ fs stdin rs p c, p ≠ "-" → fs p = .ok c →
      FileOrStdin.from_path fs stdin rs p =
        .ok (.File { content := c, pos := 0, script := rs })) ∧
    (∀ fs stdin rs p e, p ≠ "-" → fs p = .error e →
      FileOrStdin.from_path fs stdin rs p = .error e) := by
  refine ⟨?_, ?_, ?_⟩
  · intro fs stdin rs
    simp [FileOrStdin.from_path, STDIO_FILENAME]
  · intro fs stdin rs p c hp hfs
    simp [FileOrStdin.from_path, STDIO_FILENAME, hp, hfs]
  · intro fs stdin rs p e hp hfs
    simp [FileOrStdin.from_path, STDIO_FILENAME, hp, hfs]

/-- C1 witness: concrete instances, including an environment in which
a file named "-" exists yet the stdin branch is taken. -/
theorem c1_from_path_dispatch_witness :
    FileOrStdin.from_path (fun _ => .ok [9]) sampleStdin [] "-" =
      .ok (.Stdin sampleStdin) ∧
    FileOrStdin.from_path (fun _ => .ok [9]) sampleStdin [] "x" =
      .ok (.File { content := [9], pos := 0, script := [] }) ∧
    FileOrStdin.from_path failFs sampleStdin [] "x" = .error .notFound :=
  ⟨c1_from_path_dispatch.1 (fun _ => .ok [9]) sampleStdin [],
   c1_from_path_dispatch.2.1 (fun _ => .ok [9]) sampleStdin [] "x" [9]
     (by decide) rfl,
   c1_from_path_dispatch.2.2 failFs sampleStdin [] "x" .notFound
     (by decide) rfl⟩

/-- C2: the code slips on this claim.  FileOrStdout::write_all never
calls flush; the BufWriter is dropped, and std's Drop flushes but
ignores the result.  In an environment where the flush-time raw write
fails, write_all returns Ok even though not one byte of the buffer
reached the file. -/
theorem c2_write_all_swallows_flush_error :
    (FileOrStdout.write_all failFlushWorld "t" [1, 2, 3]).1 = .ok () ∧
    getFile (FileOrStdout.write_all failFlushWorld "t" [1, 2, 3]).2.files
      "t" = [] :=
  ⟨rfl, rfl⟩

/-- C3: FileOrStdin::read_to_string is extensionally the composition
from_path then lock then read_to_string on the lock (the spec-side
composition specReadToString), and open errors are propagated
unchanged; read and decode errors coincide on both sides because the
two sides are equal as functions. -/
theorem c3_read_to_string_is_composition :
    (∀ fs stdin rs p, FileOrStdin.read_to_string fs stdin rs p =
      specReadToString fs stdin rs p) ∧
    (∀ fs stdin rs p e, p ≠ "-" → fs p = .error e →
      FileOrStdin.read_to_string fs stdin rs p = .error e) := by
  constructor
  · intro fs stdin rs p
    rfl
  · intro fs stdin rs p e hp hfs
    unfold FileOrStdin.read_to_string
    simp [FileOrStdin.from_path, STDIO_FILENAME, hp, hfs]

/-- C3 witness: an open failure is surfaced unchanged. -/
theorem c3_read_to_string_is_composition_witness :
    FileOrStdin.read_to_string failFs sampleStdin [] "x" =
      .error .notFound :=
  c3_read_to_string_is_composition.2 failFs sampleStdin [] "x" .notFound
    (by decide) rfl

/-- C4: FileOrStdout::from_path truncates (the created file is empty),
and with an all-accepting environment two successive write_all calls of
the same content leave the file containing exactly one copy of it. -/
theorem c4_truncate_idempotent :
    (∀ w p, p ≠ "-" → w.createErr p = none →
      getFile (FileOrStdout.from_path w p).2.files p = []) ∧
    (∀ w p c, p ≠ "-" → w.createErr p = none → w.wscript = [] →
      (FileOrStdout.write_all w p c).1 = .ok () ∧
      (FileOrStdout.write_all (FileOrStdout.write_all w p c).2 p c).1 =
        .ok () ∧
      getFile
        (FileOrStdout.write_all
          (FileOrStdout.write_all w p c).2 p c).2.files p = c) := by
  constructor
  · intro w p hp hcr
    simp [FileOrStdout.from_path, STDIO_FILENAME, hp, hcr, getFile_setFile]
  · intro w p c hp hcr hs
    obtain ⟨h1, h2, h3, h4⟩ := write_all_clean hp hcr hs
    have hcr2 : (FileOrStdout.write_all w p c).2.createErr p = none := by
      rw [h4]
      exact hcr
    obtain ⟨g1, g2, g3, g4⟩ := write_all_clean hp hcr2 h3
    exact ⟨h1, g1, g2⟩

/-- C4 witness: a concrete double write leaves one copy. -/
theorem c4_truncate_idempotent_witness :
    getFile (FileOrStdout.from_path okWorld "f").2.files "f" = [] ∧
    (FileOrStdout.write_all okWorld "f" [7, 8]).1 = .ok () ∧
    (FileOrStdout.write_all
      (FileOrStdout.write_all okWorld "f" [7, 8]).2 "f" [7, 8]).1 =
      .ok () ∧
    getFile
      (FileOrStdout.write_all
        (FileOrStdout.write_all okWorld "f" [7, 8]).2 "f"
          [7, 8]).2.files "f" = [7, 8] :=
  ⟨c4_truncate_idempotent.1 okWorld "f" (by decide) rfl,
   (c4_truncate_idempotent.2 okWorld "f" [7, 8] (by decide) rfl rfl).1,
   (c4_truncate_idempotent.2 okWorld "f" [7, 8] (by decide) rfl rfl).2.1,
   (c4_truncate_idempotent.2 okWorld "f" [7, 8] (by decide) rfl rfl).2.2⟩

/-- C5 counterexample: the claim that the returned error identifies the
failing path is false.  Both from_path calls propagate the OS error
value unchanged, which carries no path: two distinct missing paths
produce the very same error value, so no function can recover the path
from the error. -/
theorem c5_counterexample_path_not_recoverable :
    FileOrStdin.from_path failFs sampleStdin [] "a" = .error .notFound ∧
    FileOrStdin.from_path failFs sampleStdin [] "b" = .error .notFound ∧
    ("a" : String) ≠ "b" ∧
    ¬ ∃ recover : IoErrKind → String, ∀ (p : String) (e : IoErrKind),
        FileOrStdin.from_path failFs sampleStdin [] p = .error e →
          recover e = p := by
  refine ⟨rfl, rfl, by decide, ?_⟩
  rintro ⟨recover, hrec⟩
  have ha := hrec "a" .notFound rfl
  have hb := hrec "b" .notFound rfl
  have hab : ("a" : String) = "b" := ha.symm.trans hb
  exact absurd hab (by decide)

/-- C5 amended: on an open or create failure both from_path functions
return the environment's I/O error value unchanged (the error kind is
preserved); the error does not embed the path, which is therefore not
recoverable from the error value alone. -/
theorem c5_amended_error_propagated_unchanged :
    (∀ fs stdin rs p e, p ≠ "-" → fs p = .error e →
      FileOrStdin.from_path fs stdin rs p = .error e) ∧
    (∀ w p e, p ≠ "-" → w.createErr p = some e →
      FileOrStdout.from_path w p = (.error e, w)) := by
  constructor
  · intro fs stdin rs p e hp hfs
    simp [FileOrStdin.from_path, STDIO_FILENAME, hp, hfs]
  · intro w p e hp hcr
    simp [FileOrStdout.from_path, STDIO_FILENAME, hp, hcr]

/-- C5 amended witness: concrete failing opens on both sides. -/
theorem c5_amended_error_propagated_unchanged_witness :
    FileOrStdin.from_path failFs sampleStdin [] "q" = .error .notFound ∧
    FileOrStdout.from_path noCreateWorld "q" =
      (.error .permissionDenied, noCreateWorld) :=
  ⟨c5_amended_error_propagated_unchanged.1 failFs sampleStdin [] "q"
     .notFound (by decide) rfl,
   c5_amended_error_propagated_unchanged.2 noCreateWorld "q"
     .permissionDenied (by decide) rfl⟩

/-- C6: every stream operation on a locked view is a pure exhaustive
dispatch delegating unchanged to the wrapped variant (ten delegation
equations, one per operation and variant), and consequently reads
deliver the underlying bytes byte-for-byte in order while writes submit
the caller's bytes in order with the underlying writer's return
value. -/
theorem c6_lock_ops_delegate :
    (∀ r n, FileOrStdinLock.read (.FileBufReader r) n =
      ((r.read n).1, .FileBufReader (r.read n).2)) ∧
    (∀ r n, FileOrStdinLock.read (.StdinLock r) n =
      ((r.read n).1, .StdinLock (r.read n).2)) ∧
    (∀ r, FileOrStdinLock.fillBuf (.FileBufReader r) =
      (r.fillBuf.1, .FileBufReader r.fillBuf.2)) ∧
    (∀ r, FileOrStdinLock.fillBuf (.StdinLock r) =
      (r.fillBuf.1, .StdinLock r.fillBuf.2)) ∧
    (∀ r amt, FileOrStdinLock.consume (.FileBufReader r) amt =
      .FileBufReader (r.consume amt)) ∧
    (∀ r amt, FileOrStdinLock.consume (.StdinLock r) amt =
      .StdinLock (r.consume amt)) ∧
    (∀ w bw buf, FileOrStdoutLock.write w (.FileBufWriter bw) buf =
      ((BufWriter.write w bw buf).1, (BufWriter.write w bw buf).2.1,
        .FileBufWriter (BufWriter.write w bw buf).2.2)) ∧
    (∀ w buf, FileOrStdoutLock.write w .StdoutLock buf =
      ((stdoutWrite w buf).1, (stdoutWrite w buf).2, .StdoutLock)) ∧
    (∀ w bw, FileOrStdoutLock.flush w (.FileBufWriter bw) =
      ((flushBuf w bw).1, (flushBuf w bw).2.1,
        .FileBufWriter (flushBuf w bw).2.2)) ∧
    (∀ w, FileOrStdoutLock.flush w .StdoutLock = (.ok (), w, .StdoutLock)) ∧
    (∀ l n bs l', FileOrStdinLock.read l n = (.ok bs, l') →
      bs ++ FileOrStdinLock.rem l' = FileOrStdinLock.rem l) ∧
    (∀ w l buf n w' l', FileOrStdoutLock.write w l buf = (.ok n, w', l') →
      n ≤ buf.length ∧ FileOrStdoutLock.delivered w' l' =
        FileOrStdoutLock.delivered w l ++ buf.take n) :=
  ⟨fun _ _ => rfl, fun _ _ => rfl, fun _ => rfl, fun _ => rfl,
   fun _ _ => rfl, fun _ _ => rfl, fun _ _ _ => rfl, fun _ _ => rfl,
   fun _ _ => rfl, fun _ => rfl,
   fun _ _ _ _ h => FileOrStdinLock.lockRead_ok h,
   fun _ _ _ n _ _ h => (FileOrStdoutLock.lockWrite_spec h).1 n rfl⟩

/-- C6 witness: a concrete in-order read and a concrete in-order
write. -/
theorem c6_lock_ops_delegate_witness :
    ([5] ++ FileOrStdinLock.rem (FileOrStdinLock.read sampleLock 1).2 =
      FileOrStdinLock.rem sampleLock) ∧
    (2 ≤ ([7, 8] : List Nat).length ∧
      FileOrStdoutLock.delivered
        (FileOrStdoutLock.write sampleOutWorld
          (.FileBufWriter { path := "o", wbuf := [] }) [7, 8]).2.1
        (FileOrStdoutLock.write sampleOutWorld
          (.FileBufWriter { path := "o", wbuf := [] }) [7, 8]).2.2 =
      FileOrStdoutLock.delivered sampleOutWorld
        (.FileBufWriter { path := "o", wbuf := [] }) ++
          ([7, 8] : List Nat).take 2) :=
  ⟨c6_lock_ops_delegate.2.2.2.2.2.2.2.2.2.2.1 sampleLock 1 [5] _ rfl,
   c6_lock_ops_delegate.2.2.2.2.2.2.2.2.2.2.2 sampleOutWorld
     (.FileBufWriter { path := "o", wbuf := [] }) [7, 8] 2 _ _ rfl⟩

/-- C7: lock maps the File variant to a fresh buffered adapter (empty
buffer, default capacity 8192, no size control in the signature) over
the same underlying file, and maps the standard-stream variant to the
process-wide locked view of that stream.  The borrow discipline (the
view borrows the handle mutably and cannot outlive it) is enforced by
Rust's lifetimes and has no computational content to model. -/
theorem c7_lock_maps_variants :
    (∀ f, FileOrStdin.lock (.File f) =
      .FileBufReader { rbuf := [], inner := f }) ∧
    (∀ s, FileOrStdin.lock (.Stdin s) = .StdinLock s) ∧
    (∀ p, FileOrStdout.lock (.File p) =
      .FileBufWriter { path := p, wbuf := [] }) ∧
    (FileOrStdout.lock .Stdout = .StdoutLock) ∧
    bufCap = 8192 :=
  ⟨fun _ => rfl, fun _ => rfl, fun _ => rfl, rfl, rfl⟩

/-- A raw read never changes the underlying content (the descriptor
only advances its position). -/
theorem RawStream.rawRead_content (s : RawStream) (n : Nat) :
    ((s.read n).2).content = s.content := by
  unfold RawStream.read
  rcases hs : s.script with _ | ⟨r, rest⟩
  · rfl
  · cases r <;> rfl

/-- fill_buf never changes the underlying content. -/
theorem BufReader.fillBuf_content (r : BufReader) :
    (r.fillBuf.2).inner.content = r.inner.content := by
  unfold BufReader.fillBuf
  split
  · rcases hr : r.inner.read bufCap with ⟨res, s'⟩
    have := RawStream.rawRead_content r.inner bufCap
    rw [hr] at this
    cases res <;> exact this
  · rfl

/-- A buffered read never changes the underlying content. -/
theorem BufReader.bufRead_content (r : BufReader) (n : Nat) :
    ((r.read n).2).inner.content = r.inner.content := by
  unfold BufReader.read
  split
  · exact RawStream.rawRead_content r.inner n
  · rcases hr : r.fillBuf with ⟨res, r'⟩
    have := BufReader.fillBuf_content r
    rw [hr] at this
    cases res <;> exact this

/-- C8: the write_all loop (io::Write::write_all as invoked by
FileOrStdout::write_all on the locked view) never reports success after
submitting only a prefix: whenever it returns ok, the view has accepted
the whole buffer, whatever partial writes or interruptions the
environment produced; and the value FileOrStdout::write_all returns is
exactly the loop's result. -/
theorem c8_no_silent_truncation :
    (∀ (fuel : Nat) (w : WWorld) (l : FileOrStdoutLock) (buf : List Nat)
      (w' : WWorld) (l' : FileOrStdoutLock),
      writeAllAux fuel w l buf = (.ok (), w', l') →
      FileOrStdoutLock.delivered w' l' =
        FileOrStdoutLock.delivered w l ++ buf) ∧
    (∀ (w : WWorld) (p : String) (buf : List Nat) (h : FileOrStdout)
      (w1 : WWorld), FileOrStdout.from_path w p = (.ok h, w1) →
      (FileOrStdout.write_all w p buf).1 =
        (FileOrStdoutLock.writeAll w1 (FileOrStdout.lock h) buf).1) := by
  constructor
  · intro fuel w l buf w' l' h
    exact writeAllAux_ok fuel h
  · intro w p buf h w1 hfp
    unfold FileOrStdout.write_all
    rw [hfp]

/-- C8 witness: an environment that first accepts a single byte, then
interrupts a call; the loop still submits the whole buffer before
reporting success, and the wrapper reports the loop's result. -/
theorem c8_no_silent_truncation_witness :
    FileOrStdoutLock.delivered
        (FileOrStdoutLock.writeAll choppyStdoutWorld .StdoutLock
          [5, 6, 7]).2.1
        (FileOrStdoutLock.writeAll choppyStdoutWorld .StdoutLock
          [5, 6, 7]).2.2 =
      FileOrStdoutLock.delivered choppyStdoutWorld .StdoutLock ++
        [5, 6, 7] ∧
    (FileOrStdout.write_all okWorld "w8" [3]).1 =
      (FileOrStdoutLock.writeAll
        { okWorld with files := setFile okWorld.files "w8" [] }
        (FileOrStdout.lock (.File "w8")) [3]).1 :=
  ⟨c8_no_silent_truncation.1 (writeAllFuel choppyStdoutWorld [5, 6, 7])
     choppyStdoutWorld .StdoutLock [5, 6, 7] _ _ rfl,
   c8_no_silent_truncation.2 okWorld "w8" [3] (.File "w8")
     { okWorld with files := setFile okWorld.files "w8" [] } rfl⟩

/-- C9: each handle is a closed sum with exactly two disjoint variants;
locking and then releasing the lock returns the very same handle, and
the stream operations keep the lock's variant and its underlying
resource (same file content on the read side, same borrowed path on
the write side). -/
theorem c9_closed_sum_variant_fixed :
    (∀ h : FileOrStdin, (∃ f, h = .File f) ∨ (∃ s, h = .Stdin s)) ∧
    (∀ f s, FileOrStdin.File f ≠ FileOrStdin.Stdin s) ∧
    (∀ h : FileOrStdin, (FileOrStdin.lock h).unlock = h) ∧
    (∀ h : FileOrStdout, (∃ p, h = .File p) ∨ h = .Stdout) ∧
    (∀ p, FileOrStdout.File p ≠ FileOrStdout.Stdout) ∧
    (∀ h w, ((FileOrStdout.lock h).unlock w).2 = h) ∧
    (∀ r n, ∃ r2, (FileOrStdinLock.read (.FileBufReader r) n).2 =
      .FileBufReader r2 ∧ r2.inner.content = r.inner.content) ∧
    (∀ r n, ∃ r2, (FileOrStdinLock.read (.StdinLock r) n).2 =
      .StdinLock r2 ∧ r2.inner.content = r.inner.content) ∧
    (∀ w bw buf, ∃ bw2,
      (FileOrStdoutLock.write w (.FileBufWriter bw) buf).2.2 =
        .FileBufWriter bw2 ∧ bw2.path = bw.path) ∧
    (∀ w buf, (FileOrStdoutLock.write w .StdoutLock buf).2.2 =
      .StdoutLock) := by
  refine ⟨?_, ?_, ?_, ?_, ?_, ?_, ?_, ?_, ?_, ?_⟩
  · intro h
    cases h with
    | File f => exact Or.inl ⟨f, rfl⟩
    | Stdin s => exact Or.inr ⟨s, rfl⟩
  · intro f s h
    exact FileOrStdin.noConfusion h
  · intro h
    cases h <;> rfl
  · intro h
    cases h with
    | File p => exact Or.inl ⟨p, rfl⟩
    | Stdout => exact Or.inr rfl
  · intro p h
    exact FileOrStdout.noConfusion h
  · intro h w
    cases h <;> rfl
  · intro r n
    exact ⟨(r.read n).2, rfl, BufReader.bufRead_content r n⟩
  · intro r n
    exact ⟨(r.read n).2, rfl, BufReader.bufRead_content r n⟩
  · intro w bw buf
    refine ⟨(BufWriter.write w bw buf).2.2, rfl, ?_⟩
    obtain ⟨hpath, _⟩ := @BufWriter.bufWrite_spec w bw buf _ _ _ rfl
    exact hpath
  · intro w buf
    rfl

/-- C10: every lock of a File-variant handle builds a brand-new
buffered adapter with an empty buffer over the same descriptor, so
read-ahead bytes buffered but not consumed by a dropped view are never
delivered again: in a concrete ten-byte file, reading one byte through
a first lock and everything through a second lock observes a single
byte. -/
theorem c10_relock_loses_readahead :
    (∀ f, FileOrStdin.lock (.File f) =
      .FileBufReader { rbuf := [], inner := f }) ∧
    (FileOrStdinLock.read (FileOrStdin.lock (.File tenStream)) 1).1 =
      .ok [0] ∧
    (FileOrStdinLock.readToEnd (FileOrStdin.lock
      (FileOrStdinLock.unlock
        (FileOrStdinLock.read (FileOrStdin.lock (.File tenStream))
          1).2))).1 = .ok ([] : List Nat) ∧
    tenStream.content.length = 10 :=
  ⟨fun _ => rfl, rfl, rfl, rfl⟩
